import Mathlib

/-!
# Verification of the ADDMYNOTES notes application (`src/script.js`)

This file is a shallow embedding of the core logic of the `NotesApp`
class in `src/script.js`, together with proofs of the specification's
claims about it.

Modelling conventions:

* A JS note object (`script.js` lines 73-78) becomes the `Note`
  structure; all four fields are strings, exactly as in the source.
* Nondeterministic platform inputs (`generateId()`, `new Date()`,
  `formatDate`, the `confirm` dialog, and whether
  `localStorage.setItem` throws) are passed in as oracle parameters.
* DOM effects (`showNotes`, `clearInput`, `showMessage`,
  `console.error`) are recorded as an explicit event list `Ev`, and the
  rendered container is modelled as the list of notes whose elements
  (with their `data-note-id` attributes) are currently in the DOM.
* `localStorage` is a single optional slot (key `notesApp`).
* Platform string primitives used by the source
  (`String.prototype.trim`, `toLowerCase`, `includes`,
  `JSON.stringify`, `JSON.parse`, and the `textContent`/`innerHTML`
  escaping round trip) are modelled explicitly below, each next to the
  operation that uses it.
-/

/-- A note record, `script.js` lines 73-78: `id`, `content`,
`timestamp` (ISO string) and `dateCreated` (formatted display string),
in that field order (the order JSON.stringify serializes them in). -/
structure Note where
  id : String
  content : String
  timestamp : String
  dateCreated : String
deriving DecidableEq, Repr

/-- ASCII whitespace recognised by `String.prototype.trim` (the
Unicode members of the JS WhiteSpace/LineTerminator sets are omitted;
the model covers the ASCII fragment). -/
def jsWhitespace (c : Char) : Bool :=
  c = ' ' || c = '\t' || c = '\n' || c = '\r' || c = '\x0b' || c = '\x0c'

/-- Model of `String.prototype.trim`: drop whitespace from both ends. -/
def jsTrim (s : String) : String :=
  String.mk (List.rdropWhile jsWhitespace (List.dropWhile jsWhitespace s.data))

/-- Model of `String.prototype.toLowerCase` (ASCII fragment). -/
def jsToLower (s : String) : String :=
  String.mk (s.data.map Char.toLower)

/-- `listContains hay needle` decides whether `needle` occurs as a
contiguous run inside `hay` (the semantics of
`String.prototype.includes`). -/
def listContains (hay needle : List Char) : Bool :=
  match hay with
  | [] => needle.isEmpty
  | _ :: t => needle.isPrefixOf hay || listContains t needle

/-- The predicate `searchNotes` filters with (`script.js` line 271):
`note.content.toLowerCase().includes(query.toLowerCase())`.
`String.prototype.includes` is substring containment. -/
def contentMatches (q : String) (n : Note) : Bool :=
  listContains (jsToLower n.content).data (jsToLower q).data

/-- How one character is serialized when a text node is read back via
`innerHTML` (the browser behaviour `escapeHtml` at `script.js` lines
205-209 relies on): `&`, `<`, `>` become entities, everything else is
emitted verbatim. -/
def escapeHtmlChar (c : Char) : String :=
  if c = '&' then "&amp;"
  else if c = '<' then "&lt;"
  else if c = '>' then "&gt;"
  else String.singleton c

def escapeHtmlList (l : List Char) : List Char :=
  l.flatMap (fun c => (escapeHtmlChar c).data)

/-- Model of `NotesApp.escapeHtml` (`script.js` lines 205-209):
`div.textContent = text; return div.innerHTML`. -/
def escapeHtml (s : String) : String :=
  String.mk (escapeHtmlList s.data)

/-- The display interpretation of HTML text: decoding the character
entities `&amp;` `&lt;` `&gt;` back to characters. Used to state that
escaped content is displayed verbatim. -/
def decodeEntities (l : List Char) : List Char :=
  match l with
  | [] => []
  | c :: rest =>
    if c = '&' then
      if rest.take 4 = ['a', 'm', 'p', ';'] then '&' :: decodeEntities (rest.drop 4)
      else if rest.take 3 = ['l', 't', ';'] then '<' :: decodeEntities (rest.drop 3)
      else if rest.take 3 = ['g', 't', ';'] then '>' :: decodeEntities (rest.drop 3)
      else c :: decodeEntities rest
    else c :: decodeEntities rest
termination_by l.length
decreasing_by
  all_goals simp
  all_goals omega

/-- The single-quote character, written out so that source apostrophes
inside generated markup can be reproduced. -/
def apos : String := String.singleton (Char.ofNat 39)

/-- Model of the `innerHTML` template built by
`NotesApp.createNoteElement` (`script.js` lines 136-144), with the
template's exact text: the content field goes through `escapeHtml`,
while `dateCreated` and `id` are interpolated verbatim (the id inside
the inline `onclick` delete callback). -/
def noteInnerHtml (n : Note) : String :=
  "\n            <div class=\"note-content\">" ++ escapeHtml n.content ++
  "</div>\n            <div class=\"note-footer\">\n                <span class=\"note-date\">" ++
  n.dateCreated ++
  "</span>\n                <button class=\"delete-btn\" onclick=\"" ++
  "notesApp.deleteNote(" ++ apos ++ n.id ++ apos ++ ")" ++
  "\">\n                    🗑️ Delete\n                </button>\n            </div>\n        "

/-! ## The JSON layer: `JSON.stringify` / `JSON.parse`

`saveToLocalStorage` stores `JSON.stringify(this.notes)` and
`loadNotes` assigns `this.notes = JSON.parse(storedNotes)`.
`Json` is the data model of JSON values; the serializer below produces
exactly the text `JSON.stringify` produces on the app's note arrays,
and `parseJsonTop` models `JSON.parse` on the whitespace-free fragment
of JSON (with integer numerals), which covers every string the app
itself ever stores. -/

inductive Json where
  | null
  | bool (b : Bool)
  | num (n : Int)
  | str (s : String)
  | arr (elems : List Json)
  | obj (members : List (String × Json))
deriving Repr

/-- The escape `JSON.stringify` applies to one character inside a
string literal: `"` and `\` get a backslash, the five named control
characters use their short escapes, the remaining control characters
become `\u00XX` (lowercase hex), and everything else is verbatim. -/
def escJsonChar (c : Char) : String :=
  if c = '"' then "\\\""
  else if c = '\\' then "\\\\"
  else if c = '\n' then "\\n"
  else if c = '\r' then "\\r"
  else if c = '\t' then "\\t"
  else if c = '\x08' then "\\b"
  else if c = '\x0c' then "\\f"
  else if c.toNat < 32 then
    "\\u00" ++ String.singleton (Nat.digitChar (c.toNat / 16)) ++
      String.singleton (Nat.digitChar (c.toNat % 16))
  else String.singleton c

def escJsonList (l : List Char) : List Char :=
  l.flatMap (fun c => (escJsonChar c).data)

/-- A JSON string literal: `"` + escaped body + `"`. -/
def quoteChars (s : String) : List Char :=
  '"' :: (escJsonList s.data ++ ['"'])

/-- The JSON value `JSON.stringify` reads off a note object
(`script.js` lines 73-78): members in insertion order
`id`, `content`, `timestamp`, `dateCreated`. -/
def encodeNote (n : Note) : Json :=
  Json.obj [("id", Json.str n.id), ("content", Json.str n.content),
    ("timestamp", Json.str n.timestamp), ("dateCreated", Json.str n.dateCreated)]

def encodeNotes (l : List Note) : Json :=
  Json.arr (l.map encodeNote)

/-- The exact character sequence `JSON.stringify` emits for one note
object: `\x7b"id":…,"content":…,"timestamp":…,"dateCreated":…\x7d`. -/
def noteJsonChars (n : Note) : List Char :=
  '\x7b' :: (quoteChars "id" ++ ':' :: (quoteChars n.id ++
    ',' :: (quoteChars "content" ++ ':' :: (quoteChars n.content ++
    ',' :: (quoteChars "timestamp" ++ ':' :: (quoteChars n.timestamp ++
    ',' :: (quoteChars "dateCreated" ++ ':' :: (quoteChars n.dateCreated ++
    ['\x7d']))))))))

/-- The serialized elements of the note array including the closing
bracket: `JSON.stringify(notes)` is `'['` followed by this. -/
def elemsChars : List Note → List Char
  | [] => [']']
  | [n] => noteJsonChars n ++ [']']
  | n :: l => noteJsonChars n ++ ',' :: elemsChars l

/-- Model of `JSON.stringify(this.notes)` (`script.js` line 174). -/
def serializeNotes (l : List Note) : String :=
  String.mk ('[' :: elemsChars l)

/-- Value of a hexadecimal digit character. -/
def hexVal (c : Char) : Option Nat :=
  if '0' ≤ c ∧ c ≤ '9' then some (c.toNat - 48)
  else if 'a' ≤ c ∧ c ≤ 'f' then some (c.toNat - 87)
  else if 'A' ≤ c ∧ c ≤ 'F' then some (c.toNat - 55)
  else none

/-- The character denoted by a short escape `\e` in a JSON string. -/
def escCode (e : Char) : Option Char :=
  if e = '"' then some '"'
  else if e = '\\' then some '\\'
  else if e = '/' then some '/'
  else if e = 'n' then some '\n'
  else if e = 'r' then some '\r'
  else if e = 't' then some '\t'
  else if e = 'b' then some '\x08'
  else if e = 'f' then some '\x0c'
  else none

/-- Parse the body of a JSON string literal (after the opening quote),
returning the decoded characters and the input after the closing
quote. -/
def parseStringBody : List Char → Option (List Char × List Char)
  | [] => none
  | c :: rest =>
    if c = '"' then some ([], rest)
    else if c = '\\' then
      match rest with
      | [] => none
      | e :: rest2 =>
        if e = 'u' then
          match rest2 with
          | h1 :: h2 :: h3 :: h4 :: rest3 =>
            match hexVal h1, hexVal h2, hexVal h3, hexVal h4 with
            | some a, some b, some c2, some d =>
              (parseStringBody rest3).map
                (fun p => (Char.ofNat (((a * 16 + b) * 16 + c2) * 16 + d) :: p.1, p.2))
            | _, _, _, _ => none
          | _ => none
        else
          match escCode e with
          | some c2 => (parseStringBody rest2).map (fun p => (c2 :: p.1, p.2))
          | none => none
    else (parseStringBody rest).map (fun p => (c :: p.1, p.2))

/-- Parse a run of decimal digits. -/
def parseNat (cs : List Char) : Option (Nat × List Char) :=
  let ds := cs.takeWhile Char.isDigit
  if ds.isEmpty then none
  else some (ds.foldl (fun a c => a * 10 + (c.toNat - 48)) 0, cs.dropWhile Char.isDigit)

mutual

/-- Fuel-indexed recursive-descent JSON value parser (the model of
`JSON.parse`, whitespace-free fragment). -/
def parseVal : Nat → List Char → Option (Json × List Char)
  | 0, _ => none
  | _ + 1, [] => none
  | fuel + 1, c :: rest =>
    if c = '"' then
      (parseStringBody rest).map (fun p => (Json.str (String.mk p.1), p.2))
    else if c = '[' then
      if rest.head? = some ']' then some (Json.arr [], rest.tail)
      else (parseElems fuel rest).map (fun p => (Json.arr p.1, p.2))
    else if c = '\x7b' then
      if rest.head? = some '\x7d' then some (Json.obj [], rest.tail)
      else (parseMembers fuel rest).map (fun p => (Json.obj p.1, p.2))
    else if c = 't' then
      if rest.take 3 = ['r', 'u', 'e'] then some (Json.bool true, rest.drop 3) else none
    else if c = 'f' then
      if rest.take 4 = ['a', 'l', 's', 'e'] then some (Json.bool false, rest.drop 4) else none
    else if c = 'n' then
      if rest.take 3 = ['u', 'l', 'l'] then some (Json.null, rest.drop 3) else none
    else if c = '-' then
      (parseNat rest).map (fun p => (Json.num (-(p.1 : Int)), p.2))
    else if c.isDigit then
      (parseNat (c :: rest)).map (fun p => (Json.num (p.1 : Int), p.2))
    else none

/-- Parse the comma-separated elements of a non-empty array,
consuming the closing `]`. -/
def parseElems : Nat → List Char → Option (List Json × List Char)
  | 0, _ => none
  | fuel + 1, cs =>
    (parseVal fuel cs).bind (fun q =>
      if q.2.head? = some ',' then
        (parseElems fuel q.2.tail).map (fun p => (q.1 :: p.1, p.2))
      else if q.2.head? = some ']' then some ([q.1], q.2.tail)
      else none)

/-- Parse the members of a non-empty object, consuming the closing
brace. -/
def parseMembers : Nat → List Char → Option (List (String × Json) × List Char)
  | 0, _ => none
  | fuel + 1, cs =>
    match cs with
    | [] => none
    | c :: rest =>
      if c = '"' then
        (parseStringBody rest).bind (fun k =>
          if k.2.head? = some ':' then
            (parseVal fuel k.2.tail).bind (fun q =>
              if q.2.head? = some ',' then
                (parseMembers fuel q.2.tail).map
                  (fun p => ((String.mk k.1, q.1) :: p.1, p.2))
              else if q.2.head? = some '\x7d' then
                some ([(String.mk k.1, q.1)], q.2.tail)
              else none)
          else none)
      else none

end

/-- Model of `JSON.parse` (`script.js` line 163): parse a complete
JSON text; fail on trailing input. The fuel is generous for the
input's length. -/
def parseJsonTop (s : String) : Option Json :=
  (parseVal (2 * s.data.length + 2) s.data).bind
    (fun p => if p.2 = [] then some p.1 else none)

/-- Reading a note back out of a parsed JSON object (the shape the
app itself stores). Used to state that the round trip is the identity
on note lists. -/
def decodeNote : Json → Option Note
  | Json.obj [("id", Json.str i), ("content", Json.str c),
      ("timestamp", Json.str t), ("dateCreated", Json.str d)] =>
    some { id := i, content := c, timestamp := t, dateCreated := d }
  | _ => none

def decodeNoteList : List Json → Option (List Note)
  | [] => some []
  | e :: r =>
    match decodeNote e, decodeNoteList r with
    | some n, some l => some (n :: l)
    | _, _ => none

def decodeNotesJson : Json → Option (List Note)
  | Json.arr es => decodeNoteList es
  | _ => none

/-- Model of `NotesApp.loadNotes` (`script.js` lines 159-169) at the
dynamic-value level: `this.notes` receives whatever
`JSON.parse(storedNotes)` returns, with no shape validation.  `stored`
is `localStorage.getItem` (`none` = key absent); the empty string is
falsy in JS, so it also leaves `this.notes` alone; a parse error hits
the `catch` and resets `this.notes` to `[]`. -/
def loadNotesDyn (stored : Option String) (current : Json) : Json :=
  match stored with
  | none => current
  | some s =>
    if s = "" then current
    else
      match parseJsonTop s with
      | some v => v
      | none => Json.arr []

/-! ## The application state machine

State: the in-memory `this.notes` array, the `notesApp` slot of
`localStorage` (kept at the note-list level; the string round trip is
established separately by the serialization theorems), and the list of
notes whose elements are currently rendered in `notesContainer`.
User-visible side effects are returned as an event list. -/

/-- Observable side effects of one operation, in program order. -/
inductive Ev where
  /-- a successful `localStorage.setItem` of the serialized list -/
  | setItem (stored : List Note)
  /-- a `console.error` log -/
  | logError
  /-- `showMessage(msg, kind)` -/
  | notice (msg : String) (kind : String)
  /-- `showNotes()`: full re-render of the unfiltered list -/
  | renderFull
  /-- `displayFilteredNotes(...)`: render of a filtered subset -/
  | renderFiltered
  /-- `clearInput()` -/
  | clearInput
deriving DecidableEq, Repr

def Ev.isSetItem : Ev → Bool
  | Ev.setItem _ => true
  | _ => false

def Ev.isRenderFull : Ev → Bool
  | Ev.renderFull => true
  | _ => false

structure AppState where
  notes : List Note
  storage : Option (List Note)
  dom : List Note
deriving DecidableEq, Repr

/-- Model of `NotesApp.saveToLocalStorage` (`script.js` lines
172-179).  `writeFails` is the oracle for whether
`localStorage.setItem` throws (quota exceeded / storage unavailable);
the `catch` logs and shows a transient error notice and the function
returns normally either way. -/
def saveToLocalStorage (writeFails : Bool) (s : AppState) : AppState × List Ev :=
  if writeFails then
    (s, [Ev.logError, Ev.notice "Error saving notes. Storage might be full." "error"])
  else
    ({ s with storage := some s.notes }, [Ev.setItem s.notes])

/-- Model of `NotesApp.saveNote` (`script.js` lines 62-88).
`input` is `noteInput.value`; `freshId`, `ts`, `dc` are the oracle
results of `generateId()`, `new Date().toISOString()` and
`formatDate(new Date())`. -/
def saveNote (input freshId ts dc : String) (writeFails : Bool) (s : AppState) :
    AppState × List Ev :=
  let noteText := jsTrim input
  if noteText = "" then
    (s, [Ev.notice "Please enter a note before adding!" "error"])
  else
    let note : Note := { id := freshId, content := noteText, timestamp := ts, dateCreated := dc }
    let notes2 := note :: s.notes
    let p := saveToLocalStorage writeFails { s with notes := notes2 }
    ({ p.1 with dom := notes2 },
      p.2 ++ [Ev.renderFull, Ev.clearInput, Ev.notice "Note added successfully!" "success"])

/-- Model of `NotesApp.deleteNote` (`script.js` lines 95-113).
`confirmed` is the oracle for the `confirm` dialog.  The element
lookup `document.querySelector('[data-note-id=…]')` succeeds exactly
when a note with that id is currently rendered; only then does the
(timer-delayed, modelled as completed) filter/persist/re-render run. -/
def deleteNote (noteId : String) (confirmed writeFails : Bool) (s : AppState) :
    AppState × List Ev :=
  if confirmed then
    if s.dom.any (fun n => n.id == noteId) then
      let notes2 := s.notes.filter (fun n => n.id != noteId)
      let p := saveToLocalStorage writeFails { s with notes := notes2 }
      ({ p.1 with dom := notes2 },
        p.2 ++ [Ev.renderFull, Ev.notice "Note deleted successfully!" "success"])
    else (s, [])
  else (s, [])

/-- Model of `NotesApp.searchNotes` (`script.js` lines 264-275) plus
`displayFilteredNotes` (lines 278-294): a blank query re-renders the
full list (`showNotes`), otherwise the case-insensitive substring
filter is rendered; the in-memory list and storage are untouched. -/
def searchNotes (query : String) (s : AppState) : AppState × List Ev :=
  if jsTrim query = "" then
    ({ s with dom := s.notes }, [Ev.renderFull])
  else
    ({ s with dom := s.notes.filter (contentMatches query) }, [Ev.renderFiltered])

/-- Model of `NotesApp.loadNotes` (`script.js` lines 159-169) at the
note-list level: if the slot holds a (previously persisted) list,
`this.notes` becomes that list, otherwise it is left alone. -/
def loadNotes (s : AppState) : AppState × List Ev :=
  match s.storage with
  | none => (s, [])
  | some l => ({ s with notes := l }, [])

/-- A fresh session with nothing persisted, before any operation:
`this.notes = []` (`script.js` line 21). -/
def initialState : AppState :=
  { notes := [], storage := none, dom := [] }

/-- One user-triggered operation of the app.  In the `create` step the
side condition on `freshId` is `generateId()`'s session-uniqueness
contract (`script.js` lines 188-190: current time in base 36 plus a
random component). -/
inductive Step : AppState → AppState → Prop where
  | create (input freshId ts dc : String) (w : Bool) (s : AppState)
      (hfresh : freshId ∉ s.notes.map Note.id) :
      Step s (saveNote input freshId ts dc w s).1
  | delete (noteId : String) (confirmed w : Bool) (s : AppState) :
      Step s (deleteNote noteId confirmed w s).1
  | search (query : String) (s : AppState) :
      Step s (searchNotes query s).1
  | persist (w : Bool) (s : AppState) :
      Step s (saveToLocalStorage w s).1
  | load (s : AppState) :
      Step s (loadNotes s).1

/-- States reachable from the empty list by any sequence of create,
delete, search, persist and load operations. -/
inductive Reachable : AppState → Prop where
  | init : Reachable initialState
  | step {s t : AppState} : Reachable s → Step s t → Reachable t

/-- C1: for every input string whose trim is non-empty, `saveNote`
prepends exactly one new note carrying the freshly generated id, the
trimmed content, the current timestamp and the formatted display
string, making it the first element and growing the count by one; the
new list is persisted, and the event trace holds exactly one
persistence write (`setItem`), exactly one full re-render, and the
input-clearing effect. -/
theorem saveNote_valid_spec (input freshId ts dc : String) (s : AppState)
    (h : jsTrim input ≠ "") :
    (saveNote input freshId ts dc false s).1.notes =
        { id := freshId, content := jsTrim input, timestamp := ts, dateCreated := dc } :: s.notes
      ∧ (saveNote input freshId ts dc false s).1.notes.length = s.notes.length + 1
      ∧ (saveNote input freshId ts dc false s).1.storage =
          some ((saveNote input freshId ts dc false s).1.notes)
      ∧ (saveNote input freshId ts dc false s).2.countP Ev.isSetItem = 1
      ∧ (saveNote input freshId ts dc false s).2.countP Ev.isRenderFull = 1
      ∧ Ev.clearInput ∈ (saveNote input freshId ts dc false s).2 := by
  simp [saveNote, saveToLocalStorage, h, List.countP_cons, Ev.isSetItem, Ev.isRenderFull]

theorem saveNote_valid_witness :
    (saveNote "hi" "a" "t" "d" false initialState).1.notes =
      [{ id := "a", content := "hi", timestamp := "t", dateCreated := "d" }] :=
  (saveNote_valid_spec "hi" "a" "t" "d" initialState (by decide)).1

/-- C6: for every input whose trim is empty, `saveNote` leaves the
whole state unchanged (in particular the note list), emits only the
transient validation-error notice, and performs no persistence write;
as a total Lean function it returns normally, so no exception escapes
this boundary. -/
theorem saveNote_empty_spec (input freshId ts dc : String) (w : Bool) (s : AppState)
    (h : jsTrim input = "") :
    saveNote input freshId ts dc w s =
      (s, [Ev.notice "Please enter a note before adding!" "error"])
    ∧ (saveNote input freshId ts dc w s).2.countP Ev.isSetItem = 0 := by
  simp [saveNote, h, Ev.isSetItem]

theorem saveNote_empty_witness :
    saveNote " \t\n" "x" "t" "d" true initialState =
      (initialState, [Ev.notice "Please enter a note before adding!" "error"]) :=
  (saveNote_empty_spec " \t\n" "x" "t" "d" true initialState (by decide)).1

/-- C8: when the storage write fails (`writeFails = true`, i.e.
`localStorage.setItem` throws, e.g. quota exceeded or storage
unavailable), `saveToLocalStorage` catches the failure, logs it and
surfaces a transient error notice, returns normally instead of
crashing, and leaves the state — in particular the in-memory note
list — exactly as it was (no rollback). -/
theorem saveToLocalStorage_failure_spec (s : AppState) :
    (saveToLocalStorage true s).1 = s
    ∧ (saveToLocalStorage true s).1.notes = s.notes
    ∧ (saveToLocalStorage true s).2 =
        [Ev.logError, Ev.notice "Error saving notes. Storage might be full." "error"] := by
  simp [saveToLocalStorage]

/-- C5: a query with empty trim makes `searchNotes` behave exactly
like a full render of the unfiltered list; a query with non-empty trim
displays exactly those notes whose content contains the query as a
case-insensitive substring, in a sublist of the original (so the
newest-first relative order is preserved); and in both cases the
in-memory list and the persisted state are untouched. -/
theorem searchNotes_spec (query : String) (s : AppState) :
    (jsTrim query = "" → searchNotes query s = ({ s with dom := s.notes }, [Ev.renderFull]))
    ∧ (jsTrim query ≠ "" →
        ((searchNotes query s).1.dom.Sublist s.notes
         ∧ ∀ n, n ∈ (searchNotes query s).1.dom ↔ n ∈ s.notes ∧ contentMatches query n = true))
    ∧ (searchNotes query s).1.notes = s.notes
    ∧ (searchNotes query s).1.storage = s.storage := by
  refine ⟨fun h => by simp [searchNotes, h], fun h => ?_, ?_, ?_⟩
  · constructor
    · simp only [searchNotes, if_neg h]
      exact List.filter_sublist _
    · intro n
      simp [searchNotes, if_neg h, List.mem_filter]
  · unfold searchNotes
    split <;> rfl
  · unfold searchNotes
    split <;> rfl

theorem searchNotes_witness :
    searchNotes "" initialState = (initialState, [Ev.renderFull])
    ∧ (searchNotes "buy"
        { notes := [{ id := "1", content := "BUY bread", timestamp := "t1", dateCreated := "d1" },
                    { id := "2", content := "Call mom", timestamp := "t2", dateCreated := "d2" },
                    { id := "3", content := "Buy milk", timestamp := "t3", dateCreated := "d3" }],
          storage := none, dom := [] }).1.dom.Sublist
        [{ id := "1", content := "BUY bread", timestamp := "t1", dateCreated := "d1" },
         { id := "2", content := "Call mom", timestamp := "t2", dateCreated := "d2" },
         { id := "3", content := "Buy milk", timestamp := "t3", dateCreated := "d3" }] :=
  ⟨(searchNotes_spec "" initialState).1 rfl,
   ((searchNotes_spec "buy" _).2.1 (by decide)).1⟩

/-- C2: with the rendered container in sync with the list and ids
unique, `deleteNote` is a no-op when the user declines the
confirmation; a confirmed delete of an absent id leaves everything
unchanged (silent no-op); and a confirmed delete of a present id
removes exactly that note and no other — membership is preserved for
every other note, the order is preserved (sublist), the count drops by
exactly one — and the result is persisted. -/
theorem deleteNote_spec (noteId : String) (s : AppState)
    (hsync : s.dom = s.notes) (hnodup : (s.notes.map Note.id).Nodup) :
    (∀ w, deleteNote noteId false w s = (s, []))
    ∧ (noteId ∉ s.notes.map Note.id → deleteNote noteId true false s = (s, []))
    ∧ (noteId ∈ s.notes.map Note.id →
        ((deleteNote noteId true false s).1.notes.length + 1 = s.notes.length
         ∧ (∀ n, n ∈ (deleteNote noteId true false s).1.notes ↔ n ∈ s.notes ∧ n.id ≠ noteId)
         ∧ (deleteNote noteId true false s).1.notes.Sublist s.notes
         ∧ (deleteNote noteId true false s).1.storage =
             some ((deleteNote noteId true false s).1.notes))) := by
  refine ⟨fun w => by simp [deleteNote], fun habs => ?_, fun hmem => ?_⟩
  · have hany : s.dom.any (fun n => n.id == noteId) = false := by
      rw [hsync]
      simp only [List.any_eq_false]
      intro n hn
      simp only [beq_iff_eq]
      intro hid
      exact habs (List.mem_map.mpr ⟨n, hn, hid⟩)
    simp [deleteNote, hany]
  · have hany : s.dom.any (fun n => n.id == noteId) = true := by
      rw [hsync]
      obtain ⟨n, hn, hid⟩ := List.mem_map.mp hmem
      exact List.any_eq_true.mpr ⟨n, hn, by simp [hid]⟩
    have hcount1 : s.notes.countP (fun n => n.id == noteId) = 1 := by
      have h1 : (s.notes.map Note.id).count noteId = 1 :=
        List.count_eq_one_of_mem hnodup hmem
      rwa [List.count_eq_countP, List.countP_map] at h1
    have hlen : (s.notes.filter (fun n => n.id != noteId)).length + 1 = s.notes.length := by
      have hsplit := List.length_eq_countP_add_countP (fun n => n.id == noteId) s.notes
      have hpeq : (fun a : Note => decide ¬(a.id == noteId) = true) =
          (fun n : Note => n.id != noteId) := by
        funext a
        cases h : a.id == noteId <;> simp [h, bne]
      have hfeq : s.notes.countP (fun a => decide ¬(a.id == noteId) = true) =
          (s.notes.filter (fun n => n.id != noteId)).length := by
        rw [hpeq, List.countP_eq_length_filter]
      omega
    refine ⟨by simpa [deleteNote, hany, saveToLocalStorage] using hlen, ?_, ?_, ?_⟩
    · intro n
      simp [deleteNote, hany, saveToLocalStorage, List.mem_filter, bne_iff_ne]
    · simp only [deleteNote, hany, if_pos, if_true, saveToLocalStorage, if_neg Bool.false_ne_true]
      exact List.filter_sublist _
    · simp [deleteNote, hany, saveToLocalStorage]

theorem deleteNote_witness :
    (deleteNote "id1" true false
      { notes := [{ id := "id1", content := "a", timestamp := "t1", dateCreated := "d1" },
                  { id := "id2", content := "b", timestamp := "t2", dateCreated := "d2" }],
        storage := none,
        dom := [{ id := "id1", content := "a", timestamp := "t1", dateCreated := "d1" },
                { id := "id2", content := "b", timestamp := "t2", dateCreated := "d2" }] }).1.notes.length + 1 =
    (AppState.notes
      { notes := [{ id := "id1", content := "a", timestamp := "t1", dateCreated := "d1" },
                  { id := "id2", content := "b", timestamp := "t2", dateCreated := "d2" }],
        storage := none,
        dom := [{ id := "id1", content := "a", timestamp := "t1", dateCreated := "d1" },
                { id := "id2", content := "b", timestamp := "t2", dateCreated := "d2" }] }).length :=
  ((deleteNote_spec "id1" _ rfl (by decide)).2.2 (by decide)).1

theorem strDataAppend (a b : String) : (a ++ b).data = a.data ++ b.data := rfl

theorem escapeHtmlList_cons (c : Char) (l : List Char) :
    escapeHtmlList (c :: l) = (escapeHtmlChar c).data ++ escapeHtmlList l := by
  simp [escapeHtmlList]

theorem escapeHtmlChar_no_markup (c : Char) :
    '<' ∉ (escapeHtmlChar c).data ∧ '>' ∉ (escapeHtmlChar c).data := by
  unfold escapeHtmlChar
  by_cases h1 : c = '&'
  · simp [h1]
  · by_cases h2 : c = '<'
    · simp [h1, h2]
    · by_cases h3 : c = '>'
      · simp [h1, h2, h3]
      · simp only [if_neg h1, if_neg h2, if_neg h3]
        have hs : (String.singleton c).data = [c] := rfl
        simp [hs, h2, h3]
        exact ⟨fun h => h2 h.symm, fun h => h3 h.symm⟩

theorem escapeHtmlList_no_markup (l : List Char) :
    '<' ∉ escapeHtmlList l ∧ '>' ∉ escapeHtmlList l := by
  induction l with
  | nil => simp [escapeHtmlList]
  | cons c l ih =>
    rw [escapeHtmlList_cons]
    have hc := escapeHtmlChar_no_markup c
    simp only [List.mem_append]
    exact ⟨fun h => h.elim (fun h => hc.1 h) (fun h => ih.1 h),
           fun h => h.elim (fun h => hc.2 h) (fun h => ih.2 h)⟩

theorem decodeEntities_escapeHtmlList (l : List Char) :
    decodeEntities (escapeHtmlList l) = l := by
  induction l with
  | nil => simp [escapeHtmlList, decodeEntities.eq_def]
  | cons c l ih =>
    rw [escapeHtmlList_cons]
    unfold escapeHtmlChar
    by_cases h1 : c = '&'
    · subst h1
      have hd : ("&amp;" : String).data = ['&', 'a', 'm', 'p', ';'] := rfl
      simp only [if_pos rfl, hd, List.cons_append, List.nil_append]
      rw [decodeEntities.eq_def]
      simp [ih]
    · by_cases h2 : c = '<'
      · subst h2
        have hd : ("&lt;" : String).data = ['&', 'l', 't', ';'] := rfl
        simp only [if_neg h1, if_pos rfl, hd, List.cons_append, List.nil_append]
        rw [decodeEntities.eq_def]
        simp [ih]
      · by_cases h3 : c = '>'
        · subst h3
          have hd : ("&gt;" : String).data = ['&', 'g', 't', ';'] := rfl
          simp only [if_neg h1, if_neg h2, if_pos rfl, hd, List.cons_append, List.nil_append]
          rw [decodeEntities.eq_def]
          simp [ih]
        · have hs : (String.singleton c).data = [c] := rfl
          simp only [if_neg h1, if_neg h2, if_neg h3, hs, List.cons_append, List.nil_append]
          rw [decodeEntities.eq_def]
          simp [h1, ih]

/-- C3: `escapeHtml` neutralizes markup-significant characters — its
output never contains `<` or `>`, so no tag can form when it is placed
in the note-content element — and decoding the produced entities
(`&amp;` `&lt;` `&gt;`, the display interpretation) yields the original
content verbatim; in particular the example payload
`<script>alert(1)</script>` becomes literal text. -/
theorem escapeHtml_spec (s : String) :
    ('<' ∉ (escapeHtml s).data ∧ '>' ∉ (escapeHtml s).data)
    ∧ decodeEntities (escapeHtml s).data = s.data
    ∧ escapeHtml "<script>alert(1)</script>" = "&lt;script&gt;alert(1)&lt;/script&gt;" :=
  ⟨escapeHtmlList_no_markup s.data, decodeEntities_escapeHtmlList s.data, by decide⟩

/-- C9: the markup `createNoteElement` builds contains the note's
`dateCreated` string verbatim, and contains
`notesApp.deleteNote('<id>')` with the raw `id` interpolated into the
inline `onclick` attribute — neither field passes through the escaping
step, so markup-significant characters in those fields survive into
the rendered HTML. -/
theorem noteInnerHtml_verbatim (n : Note) :
    n.dateCreated.data <:+: (noteInnerHtml n).data
    ∧ ("notesApp.deleteNote(" ++ apos ++ n.id ++ apos ++ ")").data <:+: (noteInnerHtml n).data := by
  unfold noteInnerHtml
  constructor
  · refine ⟨("\n            <div class=\"note-content\">" ++ escapeHtml n.content ++
      "</div>\n            <div class=\"note-footer\">\n                <span class=\"note-date\">").data,
      ("</span>\n                <button class=\"delete-btn\" onclick=\"" ++
       "notesApp.deleteNote(" ++ apos ++ n.id ++ apos ++ ")" ++
       "\">\n                    🗑️ Delete\n                </button>\n            </div>\n        ").data, ?_⟩
    simp only [strDataAppend, List.append_assoc]
  · refine ⟨("\n            <div class=\"note-content\">" ++ escapeHtml n.content ++
      "</div>\n            <div class=\"note-footer\">\n                <span class=\"note-date\">" ++
      n.dateCreated ++
      "</span>\n                <button class=\"delete-btn\" onclick=\"").data,
      ("\">\n                    🗑️ Delete\n                </button>\n            </div>\n        " : String).data, ?_⟩
    simp only [strDataAppend, List.append_assoc]

/-- C10: `loadNotes` does not validate the shape of the deserialized
value: with the well-formed JSON string `"42"` stored, it completes
without raising and replaces the in-memory list with the number `42`,
which is not an array of note records, rather than falling back to the
empty list. -/
theorem loadNotes_no_validation :
    loadNotesDyn (some "42") (Json.arr []) = Json.num 42
    ∧ ∀ es : List Json, Json.num 42 ≠ Json.arr es :=
  ⟨rfl, fun _ h => Json.noConfusion h⟩

theorem step_inv {s t : AppState} (hs : Step s t)
    (ih : (s.notes.map Note.id).Nodup ∧ ∀ l, s.storage = some l → (l.map Note.id).Nodup) :
    (t.notes.map Note.id).Nodup ∧ ∀ l, t.storage = some l → (l.map Note.id).Nodup := by
  cases hs
  case create input freshId ts dc w hfresh =>
    by_cases hin : jsTrim input = ""
    · simpa [saveNote, hin] using ih
    · have hnd : ((Note.mk freshId (jsTrim input) ts dc :: s.notes).map Note.id).Nodup := by
        simp only [List.map_cons, List.nodup_cons]
        exact ⟨hfresh, ih.1⟩
      cases w with
      | true =>
        refine ⟨?_, ?_⟩
        · simpa [saveNote, hin, saveToLocalStorage] using hnd
        · intro l hl
          have hst : s.storage = some l := by
            simpa [saveNote, hin, saveToLocalStorage] using hl
          exact ih.2 l hst
      | false =>
        refine ⟨?_, ?_⟩
        · simpa [saveNote, hin, saveToLocalStorage] using hnd
        · intro l hl
          have hleq : Note.mk freshId (jsTrim input) ts dc :: s.notes = l := by
            simpa [saveNote, hin, saveToLocalStorage] using hl
          rw [← hleq]
          exact hnd
  case delete noteId confirmed w =>
    have hnd : ((s.notes.filter (fun n => n.id != noteId)).map Note.id).Nodup :=
      ih.1.sublist ((List.filter_sublist s.notes).map Note.id)
    cases confirmed with
    | false => simpa [deleteNote] using ih
    | true =>
      by_cases hel : s.dom.any (fun n => n.id == noteId) = true
      · cases w with
        | true =>
          refine ⟨?_, ?_⟩
          · simpa [deleteNote, hel, saveToLocalStorage] using hnd
          · intro l hl
            have hst : s.storage = some l := by
              simpa [deleteNote, hel, saveToLocalStorage] using hl
            exact ih.2 l hst
        | false =>
          refine ⟨?_, ?_⟩
          · simpa [deleteNote, hel, saveToLocalStorage] using hnd
          · intro l hl
            have hleq : s.notes.filter (fun n => n.id != noteId) = l := by
              simpa [deleteNote, hel, saveToLocalStorage] using hl
            rw [← hleq]
            exact hnd
      · simpa [deleteNote, hel] using ih
  case search query =>
    by_cases hq : jsTrim query = "" <;> simpa [searchNotes, hq] using ih
  case persist w =>
    cases w with
    | true => simpa [saveToLocalStorage] using ih
    | false =>
      refine ⟨?_, ?_⟩
      · simpa [saveToLocalStorage] using ih.1
      · intro l hl
        have hleq : s.notes = l := by simpa [saveToLocalStorage] using hl
        rw [← hleq]
        exact ih.1
  case load =>
    cases hst : s.storage with
    | none => simpa [loadNotes, hst] using ih
    | some l0 =>
      refine ⟨?_, ?_⟩
      · simpa [loadNotes, hst] using ih.2 l0 hst
      · intro l hl
        have hleq : l0 = l := by simpa [loadNotes, hst] using hl
        rw [← hleq]
        exact ih.2 l0 hst

theorem reachable_inv {s : AppState} (h : Reachable s) :
    (s.notes.map Note.id).Nodup ∧ ∀ l, s.storage = some l → (l.map Note.id).Nodup := by
  induction h with
  | init => simp [initialState]
  | step hr hstep ih => exact step_inv hstep ih

/-- C7: in every state reachable from the empty list by any sequence
of create, delete, search, persist and load operations (with
`generateId` honouring its uniqueness contract in the create step), no
two notes in the list share an id. -/
theorem reachable_ids_nodup {s : AppState} (h : Reachable s) :
    (s.notes.map Note.id).Nodup :=
  (reachable_inv h).1

theorem reachable_ids_nodup_witness :
    ((saveNote "b" "id2" "t2" "d2" false
        (saveNote "a" "id1" "t1" "d1" false initialState).1).1.notes.map Note.id).Nodup :=
  reachable_ids_nodup
    (Reachable.step
      (Reachable.step Reachable.init
        (Step.create "a" "id1" "t1" "d1" false initialState (by decide)))
      (Step.create "b" "id2" "t2" "d2" false _ (by decide)))

theorem hexVal_digitChar {m : Nat} (hm : m < 16) : hexVal (Nat.digitChar m) = some m := by
  interval_cases m <;> rfl

theorem escJsonList_cons (c : Char) (l : List Char) :
    escJsonList (c :: l) = (escJsonChar c).data ++ escJsonList l := by
  simp [escJsonList]

theorem parseStringBody_esc (l rest : List Char) :
    parseStringBody (escJsonList l ++ '"' :: rest) = some (l, rest) := by
  induction l with
  | nil =>
    have h0 : escJsonList [] = [] := rfl
    rw [h0, List.nil_append, parseStringBody.eq_def]
    simp
  | cons c l ih =>
    rw [escJsonList_cons, List.append_assoc]
    unfold escJsonChar
    by_cases h1 : c = '"'
    · subst h1
      have hd : ("\\\"" : String).data = ['\\', '"'] := rfl
      simp only [if_pos rfl, hd, List.cons_append, List.nil_append]
      rw [parseStringBody.eq_def]
      simp [escCode, ih]
    · by_cases h2 : c = '\\'
      · subst h2
        have hd : ("\\\\" : String).data = ['\\', '\\'] := rfl
        simp only [if_neg h1, if_pos rfl, hd, List.cons_append, List.nil_append]
        rw [parseStringBody.eq_def]
        simp [escCode, ih]
      · by_cases h3 : c = '\n'
        · subst h3
          have hd : ("\\n" : String).data = ['\\', 'n'] := rfl
          simp only [if_neg h1, if_neg h2, if_pos rfl, hd, List.cons_append, List.nil_append]
          rw [parseStringBody.eq_def]
          simp [escCode, ih]
        · by_cases h4 : c = '\r'
          · subst h4
            have hd : ("\\r" : String).data = ['\\', 'r'] := rfl
            simp only [if_neg h1, if_neg h2, if_neg h3, if_pos rfl, hd, List.cons_append,
              List.nil_append]
            rw [parseStringBody.eq_def]
            simp [escCode, ih]
          · by_cases h5 : c = '\t'
            · subst h5
              have hd : ("\\t" : String).data = ['\\', 't'] := rfl
              simp only [if_neg h1, if_neg h2, if_neg h3, if_neg h4, if_pos rfl, hd,
                List.cons_append, List.nil_append]
              rw [parseStringBody.eq_def]
              simp [escCode, ih]
            · by_cases h6 : c = '\x08'
              · subst h6
                have hd : ("\\b" : String).data = ['\\', 'b'] := rfl
                simp only [if_neg h1, if_neg h2, if_neg h3, if_neg h4, if_neg h5, if_pos rfl, hd,
                  List.cons_append, List.nil_append]
                rw [parseStringBody.eq_def]
                simp [escCode, ih]
              · by_cases h7 : c = '\x0c'
                · subst h7
                  have hd : ("\\f" : String).data = ['\\', 'f'] := rfl
                  simp only [if_neg h1, if_neg h2, if_neg h3, if_neg h4, if_neg h5, if_neg h6,
                    if_pos rfl, hd, List.cons_append, List.nil_append]
                  rw [parseStringBody.eq_def]
                  simp [escCode, ih]
                · by_cases h8 : c.toNat < 32
                  · have hdiv : c.toNat / 16 < 16 := by omega
                    have hmod : c.toNat % 16 < 16 := Nat.mod_lt _ (by omega)
                    have hd : ("\\u00" ++ String.singleton (Nat.digitChar (c.toNat / 16)) ++
                        String.singleton (Nat.digitChar (c.toNat % 16))).data =
                        ['\\', 'u', '0', '0', Nat.digitChar (c.toNat / 16),
                          Nat.digitChar (c.toNat % 16)] := rfl
                    simp only [if_neg h1, if_neg h2, if_neg h3, if_neg h4, if_neg h5, if_neg h6,
                      if_neg h7, if_pos h8, hd, List.cons_append, List.nil_append]
                    have hzero : hexVal '0' = some 0 := rfl
                    rw [parseStringBody.eq_def]
                    simp [hexVal_digitChar hdiv, hexVal_digitChar hmod, hzero, ih]
                    have hn : c.toNat / 16 * 16 + c.toNat % 16 = c.toNat := by omega
                    rw [hn, Char.ofNat_toNat]
                  · have hs : (String.singleton c).data = [c] := rfl
                    simp only [if_neg h1, if_neg h2, if_neg h3, if_neg h4, if_neg h5, if_neg h6,
                      if_neg h7, if_neg h8, hs, List.cons_append, List.nil_append]
                    rw [parseStringBody.eq_def]
                    simp [h1, h2, ih]

theorem parseVal_quote (fu : Nat) (s : String) (rest : List Char) :
    parseVal (fu + 1) (quoteChars s ++ rest) = some (Json.str s, rest) := by
  have hq : quoteChars s ++ rest = '"' :: (escJsonList s.data ++ '"' :: rest) := by
    simp [quoteChars]
  rw [hq, parseVal.eq_def]
  simp [parseStringBody_esc]

theorem parseMembers_cons (fu : Nat) (k vs : String) (more : List Char) :
    parseMembers (fu + 2) (quoteChars k ++ ':' :: (quoteChars vs ++ ',' :: more)) =
      (parseMembers (fu + 1) more).map (fun p => ((k, Json.str vs) :: p.1, p.2)) := by
  have hq : quoteChars k ++ ':' :: (quoteChars vs ++ ',' :: more) =
      '"' :: (escJsonList k.data ++ '"' :: (':' :: (quoteChars vs ++ ',' :: more))) := by
    simp [quoteChars]
  rw [hq, parseMembers.eq_def]
  simp only []
  simp [parseStringBody_esc, parseVal_quote fu vs (',' :: more)]

theorem parseMembers_last (fu : Nat) (k vs : String) (rest : List Char) :
    parseMembers (fu + 2) (quoteChars k ++ ':' :: (quoteChars vs ++ '\x7d' :: rest)) =
      some ([(k, Json.str vs)], rest) := by
  have hq : quoteChars k ++ ':' :: (quoteChars vs ++ '\x7d' :: rest) =
      '"' :: (escJsonList k.data ++ '"' :: (':' :: (quoteChars vs ++ '\x7d' :: rest))) := by
    simp [quoteChars]
  rw [hq, parseMembers.eq_def]
  simp [parseStringBody_esc, parseVal_quote fu vs ('\x7d' :: rest)]

theorem parseVal_note (fu : Nat) (n : Note) (rest : List Char) :
    parseVal (fu + 6) (noteJsonChars n ++ rest) = some (encodeNote n, rest) := by
  have hshape : noteJsonChars n ++ rest =
      '\x7b' :: (quoteChars "id" ++ ':' :: (quoteChars n.id ++
        ',' :: (quoteChars "content" ++ ':' :: (quoteChars n.content ++
        ',' :: (quoteChars "timestamp" ++ ':' :: (quoteChars n.timestamp ++
        ',' :: (quoteChars "dateCreated" ++ ':' :: (quoteChars n.dateCreated ++
        '\x7d' :: rest)))))))) := by
    simp [noteJsonChars]
  have hm4 : parseMembers (fu + 2)
      (quoteChars "dateCreated" ++ ':' :: (quoteChars n.dateCreated ++ '\x7d' :: rest)) =
      some ([("dateCreated", Json.str n.dateCreated)], rest) :=
    parseMembers_last fu "dateCreated" n.dateCreated rest
  have hm3 : parseMembers (fu + 3)
      (quoteChars "timestamp" ++ ':' :: (quoteChars n.timestamp ++
        ',' :: (quoteChars "dateCreated" ++ ':' :: (quoteChars n.dateCreated ++
        '\x7d' :: rest)))) =
      some ([("timestamp", Json.str n.timestamp),
        ("dateCreated", Json.str n.dateCreated)], rest) := by
    have h := parseMembers_cons (fu + 1) "timestamp" n.timestamp
      (quoteChars "dateCreated" ++ ':' :: (quoteChars n.dateCreated ++ '\x7d' :: rest))
    rw [hm4] at h
    simpa using h
  have hm2 : parseMembers (fu + 4)
      (quoteChars "content" ++ ':' :: (quoteChars n.content ++
        ',' :: (quoteChars "timestamp" ++ ':' :: (quoteChars n.timestamp ++
        ',' :: (quoteChars "dateCreated" ++ ':' :: (quoteChars n.dateCreated ++
        '\x7d' :: rest)))))) =
      some ([("content", Json.str n.content), ("timestamp", Json.str n.timestamp),
        ("dateCreated", Json.str n.dateCreated)], rest) := by
    have h := parseMembers_cons (fu + 2) "content" n.content
      (quoteChars "timestamp" ++ ':' :: (quoteChars n.timestamp ++
        ',' :: (quoteChars "dateCreated" ++ ':' :: (quoteChars n.dateCreated ++
        '\x7d' :: rest))))
    rw [hm3] at h
    simpa using h
  have hm1 : parseMembers (fu + 5)
      (quoteChars "id" ++ ':' :: (quoteChars n.id ++
        ',' :: (quoteChars "content" ++ ':' :: (quoteChars n.content ++
        ',' :: (quoteChars "timestamp" ++ ':' :: (quoteChars n.timestamp ++
        ',' :: (quoteChars "dateCreated" ++ ':' :: (quoteChars n.dateCreated ++
        '\x7d' :: rest)))))))) =
      some ([("id", Json.str n.id), ("content", Json.str n.content),
        ("timestamp", Json.str n.timestamp), ("dateCreated", Json.str n.dateCreated)], rest) := by
    have h := parseMembers_cons (fu + 3) "id" n.id
      (quoteChars "content" ++ ':' :: (quoteChars n.content ++
        ',' :: (quoteChars "timestamp" ++ ':' :: (quoteChars n.timestamp ++
        ',' :: (quoteChars "dateCreated" ++ ':' :: (quoteChars n.dateCreated ++
        '\x7d' :: rest))))))
    rw [hm2] at h
    simpa using h
  rw [hshape, parseVal.eq_def]
  have hhead : (quoteChars "id" ++ ':' :: (quoteChars n.id ++
      ',' :: (quoteChars "content" ++ ':' :: (quoteChars n.content ++
      ',' :: (quoteChars "timestamp" ++ ':' :: (quoteChars n.timestamp ++
      ',' :: (quoteChars "dateCreated" ++ ':' :: (quoteChars n.dateCreated ++
      '\x7d' :: rest)))))))).head? = some '"' := by
    simp [quoteChars]
  simp only [hhead]
  simp [hm1, encodeNote]

theorem parseElems_notes (l : List Note) (n : Note) (fu : Nat) (rest : List Char) :
    parseElems (7 * l.length + fu + 7) (elemsChars (n :: l) ++ rest) =
      some ((n :: l).map encodeNote, rest) := by
  induction l generalizing n fu with
  | nil =>
    have hfuel : 7 * ([] : List Note).length + fu + 7 = (fu + 6) + 1 := by simp
    have hshape : elemsChars [n] ++ rest = noteJsonChars n ++ (']' :: rest) := by
      rw [show elemsChars [n] = noteJsonChars n ++ [']'] from rfl]
      simp
    rw [hfuel, hshape, parseElems.eq_def]
    simp [parseVal_note fu n (']' :: rest)]
  | cons m l ih =>
    have hfuel : 7 * (m :: l).length + fu + 7 = (7 * l.length + fu + 13) + 1 := by
      rw [List.length_cons]
      omega
    have hshape : elemsChars (n :: m :: l) ++ rest =
        noteJsonChars n ++ (',' :: (elemsChars (m :: l) ++ rest)) := by
      rw [show elemsChars (n :: m :: l) = noteJsonChars n ++ ',' :: elemsChars (m :: l) from rfl]
      simp
    rw [hfuel, hshape, parseElems.eq_def]
    have hv : parseVal (7 * l.length + fu + 13)
        (noteJsonChars n ++ (',' :: (elemsChars (m :: l) ++ rest))) =
        some (encodeNote n, ',' :: (elemsChars (m :: l) ++ rest)) :=
      parseVal_note (7 * l.length + fu + 7) n (',' :: (elemsChars (m :: l) ++ rest))
    have hrec : parseElems (7 * l.length + fu + 13) (elemsChars (m :: l) ++ rest) =
        some ((m :: l).map encodeNote, rest) := ih m (fu + 6)
    simp [hv, hrec]

theorem parseVal_serialize (l : List Note) (fu : Nat) (rest : List Char) :
    parseVal (7 * l.length + fu + 8) ('[' :: (elemsChars l ++ rest)) =
      some (encodeNotes l, rest) := by
  cases l with
  | nil =>
    have hfuel : 7 * ([] : List Note).length + fu + 8 = (fu + 7) + 1 := by simp
    have hshape : elemsChars ([] : List Note) ++ rest = ']' :: rest := by
      rw [show elemsChars ([] : List Note) = [']'] from rfl]
      simp
    rw [hfuel, hshape, parseVal.eq_def]
    simp [encodeNotes]
  | cons n l =>
    have hfuel : 7 * (n :: l).length + fu + 8 = (7 * l.length + fu + 14) + 1 := by
      rw [List.length_cons]
      omega
    have hhead : (elemsChars (n :: l) ++ rest).head? = some '\x7b' := by
      cases l <;> simp [elemsChars, noteJsonChars]
    rw [hfuel, parseVal.eq_def]
    have hrec : parseElems (7 * l.length + fu + 14) (elemsChars (n :: l) ++ rest) =
        some ((n :: l).map encodeNote, rest) := parseElems_notes l n (fu + 7) rest
    simp [hhead, hrec, encodeNotes]

theorem elemsChars_length (l : List Note) : 7 * l.length + 1 ≤ (elemsChars l).length := by
  have hn : ∀ n : Note, 7 ≤ (noteJsonChars n).length := by
    intro n
    simp [noteJsonChars, quoteChars, List.length_append]
    omega
  induction l with
  | nil => simp [elemsChars]
  | cons n l ih =>
    cases l with
    | nil =>
      have := hn n
      rw [show elemsChars [n] = noteJsonChars n ++ [']'] from rfl]
      simp [List.length_append]
      omega
    | cons m l2 =>
      have h1 := hn n
      rw [show elemsChars (n :: m :: l2) = noteJsonChars n ++ ',' :: elemsChars (m :: l2) from rfl]
      simp only [List.length_append, List.length_cons] at ih ⊢
      omega

theorem decodeNoteList_map (l : List Note) : decodeNoteList (l.map encodeNote) = some l := by
  induction l with
  | nil => rfl
  | cons n l ih =>
    have hd : decodeNote (encodeNote n) = some n := rfl
    rw [List.map_cons, decodeNoteList, hd, ih]

/-- C4: for every note list, parsing the exact string
`saveToLocalStorage` persists (`JSON.stringify(this.notes)`) succeeds
and yields precisely the JSON value of that list, so a `loadNotes` in
a fresh session reproduces a list equal in content and order to the
persisted one; decoding that JSON value recovers the note list itself
(the round trip is the identity on note lists). -/
theorem persist_load_roundtrip (l : List Note) :
    parseJsonTop (serializeNotes l) = some (encodeNotes l)
    ∧ decodeNotesJson (encodeNotes l) = some l := by
  constructor
  · unfold parseJsonTop serializeNotes
    have hdata : (String.mk ('[' :: elemsChars l)).data = '[' :: elemsChars l := rfl
    rw [hdata]
    cases l with
    | nil => rfl
    | cons n l2 =>
      have hlen := elemsChars_length (n :: l2)
      obtain ⟨fu, hfu⟩ : ∃ fu, 2 * ('[' :: elemsChars (n :: l2)).length + 2 =
          7 * (n :: l2).length + fu + 8 := by
        refine ⟨2 * ('[' :: elemsChars (n :: l2)).length + 2 -
          (7 * (n :: l2).length + 8), ?_⟩
        simp only [List.length_cons] at hlen ⊢
        omega
      rw [hfu]
      have h := parseVal_serialize (n :: l2) fu []
      rw [show elemsChars (n :: l2) ++ ([] : List Char) = elemsChars (n :: l2) from by simp] at h
      rw [h]
      simp
  · rw [show encodeNotes l = Json.arr (l.map encodeNote) from rfl]
    rw [show decodeNotesJson (Json.arr (l.map encodeNote)) =
      decodeNoteList (l.map encodeNote) from rfl]
    exact decodeNoteList_map l
